import Mathlib

/-!
Shallow embedding of `coilmq/store/dbm.py`: a DBM-backed queue store
(`DbmQueue`) holding per-destination queue metadata and a frame archive,
with a periodic checkpoint (`_sync`) policy.

Modelling choices:
* Machine state (the two shelve databases, the operation counter, the
  last-sync timestamp) is an explicit `Store` record threaded through the
  operations.
* Python `dict`s (the shelve databases) are association lists over `String`
  keys with dict semantics: lookup of the first matching key, in-place
  overwrite on update, uniqueness of keys preserved by construction.
* `collections.deque` is a `List String` whose head is the "left" end:
  `appendleft` is list cons, `pop()` removes the last element.
* Wall-clock time (`datetime.now()`) is a `Nat` passed explicitly to each
  state-changing operation.
* `queue_metadata.sync()` is an I/O effect; the ghost field `sync_count`
  counts how many times it has been invoked, so that flushes are observable.
* Exceptions: `enqueue` returns `Option String × Store` (the error message of
  the `ValueError`, if raised, together with the state at the raise point);
  `dequeue` returns a `DequeueOutcome` that distinguishes returning `None`,
  returning a frame, and the uncaught `KeyError` reachable when a message id
  is reused (the metadata mutations made before the lookup are kept, exactly
  as in the Python code).
-/

namespace CoilMQ

/-- A STOMP frame as the store sees it: an opaque payload carrying a
caller-assigned `message_id` (`frame.message_id` in the source). -/
structure Frame where
  message_id : String
  body : String
deriving Repr, DecidableEq

/-- One value of the `queue_metadata` shelf: the dict
`{'frames': deque(), 'enqueued': 0, 'dequeued': 0, 'size': 0}`
created at `dbm.py:145`. -/
structure MetadataEntry where
  frames : List String
  enqueued : Nat
  dequeued : Nat
  size : Nat
deriving Repr, DecidableEq

/-! ### Association lists with Python-dict semantics -/

namespace Assoc

/-- `l[k]` / `k in l`: first binding of `k`, if any. -/
def get {α : Type} (l : List (String × α)) (k : String) : Option α :=
  match l with
  | [] => none
  | p :: rest => if p.1 == k then some p.2 else get rest k

/-- `l[k] = v`: overwrite the binding of `k` in place, or append a new one. -/
def set {α : Type} (l : List (String × α)) (k : String) (v : α) :
    List (String × α) :=
  match l with
  | [] => [(k, v)]
  | p :: rest => if p.1 == k then (k, v) :: rest else p :: set rest k v

/-- `del l[k]`: drop the first binding of `k`. -/
def erase {α : Type} (l : List (String × α)) (k : String) :
    List (String × α) :=
  match l with
  | [] => []
  | p :: rest => if p.1 == k then rest else p :: erase rest k

end Assoc

/-- The mutable state of a `DbmQueue` instance:
`queue_metadata` and `frame_store` shelves, `_opcount`, `_last_sync`, and the
two checkpoint thresholds fixed at construction.  `sync_count` is a ghost
observer counting calls to `queue_metadata.sync()`. -/
structure DbmQueue where
  queue_metadata : List (String × MetadataEntry)
  frame_store : List (String × Frame)
  opcount : Nat
  last_sync : Nat
  checkpoint_operations : Nat
  checkpoint_timeout : Nat
  sync_count : Nat
deriving Repr, DecidableEq

namespace DbmQueue

/-- `DbmQueue.__init__` (dbm.py:96-126): empty shelves, `_opcount = 0`,
`_last_sync = now` (`t0`), and defaults 100 / 20 for thresholds passed as
`None`. -/
def init (checkpoint_operations checkpoint_timeout : Option Nat) (t0 : Nat) :
    DbmQueue :=
  { queue_metadata := []
    frame_store := []
    opcount := 0
    last_sync := t0
    checkpoint_operations := checkpoint_operations.getD 100
    checkpoint_timeout := checkpoint_timeout.getD 20
    sync_count := 0 }

/-- `DbmQueue._sync` (dbm.py:217-233): flush the metadata shelf iff
`_opcount > checkpoint_operations or now > _last_sync + checkpoint_timeout`;
a flush resets `_opcount` to 0 and `_last_sync` to `now`. -/
def sync (s : DbmQueue) (now : Nat) : DbmQueue :=
  if s.opcount > s.checkpoint_operations ∨ now > s.last_sync + s.checkpoint_timeout then
    { s with sync_count := s.sync_count + 1, last_sync := now, opcount := 0 }
  else
    s

/-- `DbmQueue.has_frames` (dbm.py:180-191):
`(destination in queue_metadata) and bool(queue_metadata[destination]['frames'])`. -/
def has_frames (s : DbmQueue) (destination : String) : Bool :=
  match Assoc.get s.queue_metadata destination with
  | none => false
  | some entry => !entry.frames.isEmpty

/-- `DbmQueue.size` (dbm.py:193-207): 0 for an unknown destination, else
`len(queue_metadata[destination]['frames'])`. -/
def size (s : DbmQueue) (destination : String) : Nat :=
  match Assoc.get s.queue_metadata destination with
  | none => 0
  | some entry => entry.frames.length

/-- `DbmQueue.enqueue` (dbm.py:128-153).  Returns the `ValueError` message (if
raised) together with the resulting state; the raise precedes every mutation,
so on error the state is the input state. -/
def enqueue (s : DbmQueue) (destination : String) (frame : Frame) (now : Nat) :
    Option String × DbmQueue :=
  let message_id := frame.message_id
  if message_id = "" then
    (some "Cannot queue a frame without message-id set.", s)
  else
    let md0 := s.queue_metadata
    let md1 :=
      if (Assoc.get md0 destination).isNone then
        Assoc.set md0 destination
          { frames := [], enqueued := 0, dequeued := 0, size := 0 }
      else md0
    let entry := (Assoc.get md1 destination).getD
      { frames := [], enqueued := 0, dequeued := 0, size := 0 }
    let entry' := { entry with
      frames := message_id :: entry.frames
      enqueued := entry.enqueued + 1 }
    let s' := { s with
      queue_metadata := Assoc.set md1 destination entry'
      frame_store := Assoc.set s.frame_store message_id frame
      opcount := s.opcount + 1 }
    (none, sync s' now)

/-- Result of a call to `DbmQueue.dequeue`: either a normal return (`None` or
a frame), or the uncaught `KeyError` from `frame_store[message_id]`
(dbm.py:172) when the archive has no entry for the popped id. -/
inductive DequeueOutcome where
  | returned (f : Option Frame)
  | keyError (message_id : String)
deriving Repr, DecidableEq

/-- `DbmQueue.dequeue` (dbm.py:155-178).  On the `KeyError` path the metadata
mutations already made (the `pop` and the `dequeued` increment, dbm.py:169-170)
are kept, exactly as in the Python code where the exception propagates after
those statements ran. -/
def dequeue (s : DbmQueue) (destination : String) (now : Nat) :
    DequeueOutcome × DbmQueue :=
  if ¬ has_frames s destination then
    (.returned none, s)
  else
    let entry := (Assoc.get s.queue_metadata destination).getD
      { frames := [], enqueued := 0, dequeued := 0, size := 0 }
    let message_id := entry.frames.getLast?.getD ""
    let entry' := { entry with
      frames := entry.frames.dropLast
      dequeued := entry.dequeued + 1 }
    let s1 := { s with
      queue_metadata := Assoc.set s.queue_metadata destination entry' }
    match Assoc.get s1.frame_store message_id with
    | none => (.keyError message_id, s1)
    | some frame =>
        let s2 := { s1 with
          frame_store := Assoc.erase s1.frame_store message_id
          opcount := s1.opcount + 1 }
        (.returned (some frame), sync s2 now)

end DbmQueue

/-- `make_dbm` (dbm.py:38-54), with the configuration lookup and filesystem
probes (`os.path.exists`, `os.access(dir, W_OK | R_OK)`) supplied as explicit
inputs.  On any validation failure a `ConfigError` is raised before the
`DbmQueue` constructor runs, so no store is ever created. -/
def make_dbm (data_dir : Option String) (dirExists canRead canWrite : Bool)
    (cp_ops cp_timeout : Option Nat) (t0 : Nat) : Except String DbmQueue :=
  match data_dir with
  | none => .error "Missing configuration parameter: store.dbm.data_dir"
  | some dd =>
    if dd = "" then
      .error "Missing configuration parameter: store.dbm.data_dir"
    else if ¬ dirExists then
      .error "DBM directory does not exist"
    else if ¬ (canWrite && canRead) then
      .error "Cannot read and write DBM directory"
    else
      .ok (DbmQueue.init cp_ops cp_timeout t0)

/-- One state-changing call on the store (queries `has_frames`/`size` are
read-only in the source and have no state to record). -/
inductive Op where
  | enq (destination : String) (frame : Frame) (now : Nat)
  | deq (destination : String) (now : Nat)
deriving Repr, DecidableEq

/-- Apply one operation, keeping only the state (outputs are dropped). -/
def runOp (s : DbmQueue) : Op → DbmQueue
  | .enq d f t => (s.enqueue d f t).2
  | .deq d t => (s.dequeue d t).2

/-- Run a sequence of enqueue/dequeue calls. -/
def run (s : DbmQueue) (ops : List Op) : DbmQueue :=
  ops.foldl runOp s

/-- The fresh metadata dict created on first enqueue (dbm.py:145). -/
def defaultEntry : MetadataEntry :=
  { frames := [], enqueued := 0, dequeued := 0, size := 0 }

/-- The metadata entry currently recorded for `d`, with the about-to-be-created
entry for a destination that is not yet in the shelf. -/
def entryOf (s : DbmQueue) (d : String) : MetadataEntry :=
  (Assoc.get s.queue_metadata d).getD defaultEntry

/-- Every message id pending in some destination of the metadata shelf,
in shelf order. -/
def pendingAll (l : List (String × MetadataEntry)) : List String :=
  l.foldr (fun p acc => p.2.frames ++ acc) []

/-- Whether the operation sequence ever enqueues to destination `d`. -/
def enqueuesTo (ops : List Op) (d : String) : Bool :=
  ops.any fun op =>
    match op with
    | .enq d' _ _ => d' == d
    | .deq _ _ => false

/-- Store well-formedness maintained when callers never reuse the id of a
live (still-pending) message, as dbm.py's design expects: archive keys are
unique, pending ids are globally unique, and every pending id has an archive
entry. -/
structure InvS (s : DbmQueue) : Prop where
  fsNodup : (s.frame_store.map Prod.fst).Nodup
  pendNodup : (pendingAll s.queue_metadata).Nodup
  archived : ∀ mid ∈ pendingAll s.queue_metadata,
    (Assoc.get s.frame_store mid).isSome = true

/-- Executions in which every enqueue carries a non-empty message id that is
not currently pending anywhere (the id-uniqueness discipline the source
expects of its callers). -/
inductive ReachOk : DbmQueue → DbmQueue → Prop
  | refl (s : DbmQueue) : ReachOk s s
  | enq {s0 s : DbmQueue} (d : String) (f : Frame) (t : Nat) :
      ReachOk s0 s → f.message_id ≠ "" →
      f.message_id ∉ pendingAll s.queue_metadata →
      ReachOk s0 ((s.enqueue d f t).2)
  | deq {s0 s : DbmQueue} (d : String) (t : Nat) :
      ReachOk s0 s → ReachOk s0 ((s.dequeue d t).2)

/-! ## Association-list lemmas -/

namespace Assoc

theorem get_set_self {α : Type} (l : List (String × α)) (k : String) (v : α) :
    get (set l k v) k = some v := by
  induction l with
  | nil => simp [get, set]
  | cons p rest ih =>
    by_cases h : p.1 = k
    · simp [get, set, h]
    · simp [get, set, h, ih]

theorem get_set_ne {α : Type} (l : List (String × α)) {k k' : String} (v : α)
    (h : k' ≠ k) : get (set l k v) k' = get l k' := by
  induction l with
  | nil => simp [get, set, Ne.symm h]
  | cons p rest ih =>
    by_cases hp : p.1 = k
    · simp [get, set, hp, Ne.symm h]
    · simp [get, set, hp, ih]

theorem get_erase_ne {α : Type} (l : List (String × α)) {k k' : String}
    (h : k' ≠ k) : get (erase l k) k' = get l k' := by
  induction l with
  | nil => simp [erase]
  | cons p rest ih =>
    by_cases hp : p.1 = k
    · simp [get, erase, hp, Ne.symm h]
    · simp [get, erase, hp, ih]

theorem keys_set {α : Type} (l : List (String × α)) (k : String) (v : α) :
    (set l k v).map Prod.fst =
      if (get l k).isSome then l.map Prod.fst else l.map Prod.fst ++ [k] := by
  induction l with
  | nil => simp [get, set]
  | cons p rest ih =>
    by_cases hp : p.1 = k
    · simp [get, set, hp]
    · simp only [get, set, List.map_cons]
      by_cases hs : (get rest k).isSome
      · simp [hp, hs, ih]
      · simp [hp, hs, ih]

theorem not_mem_keys_of_get_none {α : Type} (l : List (String × α))
    (k : String) (h : get l k = none) : k ∉ l.map Prod.fst := by
  induction l with
  | nil => simp
  | cons p rest ih =>
    by_cases hp : p.1 = k
    · simp [get, hp] at h
    · simp only [get, hp] at h
      simp only [List.map_cons, List.mem_cons]
      rintro (hk | hk)
      · exact hp hk.symm
      · exact ih (by simpa [hp] using h) hk

theorem get_none_of_not_mem_keys {α : Type} (l : List (String × α))
    (k : String) (h : k ∉ l.map Prod.fst) : get l k = none := by
  induction l with
  | nil => simp [get]
  | cons p rest ih =>
    simp only [List.map_cons, List.mem_cons] at h
    push_neg at h
    have hpk : ¬ p.1 = k := fun hk => h.1 hk.symm
    simp [get, hpk, ih h.2]

theorem nodup_keys_set {α : Type} (l : List (String × α)) (k : String) (v : α)
    (h : (l.map Prod.fst).Nodup) : ((set l k v).map Prod.fst).Nodup := by
  rw [keys_set]
  by_cases hs : (get l k).isSome
  · simpa [hs] using h
  · have hget : get l k = none := by
      cases hg : get l k
      · rfl
      · simp [hg] at hs
    have hnm := not_mem_keys_of_get_none l k hget
    rw [if_neg hs, List.nodup_append]
    refine ⟨h, List.nodup_singleton k, ?_⟩
    intro a ha hak
    rw [List.mem_singleton] at hak
    exact hnm (hak ▸ ha)

theorem keys_erase_sublist {α : Type} (l : List (String × α)) (k : String) :
    ((erase l k).map Prod.fst).Sublist (l.map Prod.fst) := by
  induction l with
  | nil => simp [erase]
  | cons p rest ih =>
    by_cases hp : p.1 = k
    · rw [show erase (p :: rest) k = rest from by simp [erase, hp]]
      simp only [List.map_cons]
      exact List.sublist_cons_self _ _
    · rw [show erase (p :: rest) k = p :: erase rest k from by simp [erase, hp]]
      simp only [List.map_cons]
      exact ih.cons₂ p.1

theorem nodup_keys_erase {α : Type} (l : List (String × α)) (k : String)
    (h : (l.map Prod.fst).Nodup) : ((erase l k).map Prod.fst).Nodup :=
  (keys_erase_sublist l k).nodup h

theorem get_erase_self {α : Type} (l : List (String × α)) (k : String)
    (h : (l.map Prod.fst).Nodup) : get (erase l k) k = none := by
  induction l with
  | nil => simp [erase, get]
  | cons p rest ih =>
    simp only [List.map_cons, List.nodup_cons] at h
    by_cases hp : p.1 = k
    · rw [show erase (p :: rest) k = rest from by simp [erase, hp]]
      exact get_none_of_not_mem_keys rest k (hp ▸ h.1)
    · simp [erase, get, hp, ih h.2]

end Assoc

/-! ## Observation lemmas for the store operations -/

namespace DbmQueue

theorem sync_queue_metadata (s : DbmQueue) (now : Nat) :
    (sync s now).queue_metadata = s.queue_metadata := by
  unfold sync
  split <;> rfl

theorem sync_frame_store (s : DbmQueue) (now : Nat) :
    (sync s now).frame_store = s.frame_store := by
  unfold sync
  split <;> rfl

theorem enqueue_fst (s : DbmQueue) (d : String) (f : Frame) (t : Nat)
    (h : f.message_id ≠ "") : (s.enqueue d f t).1 = none := by
  simp [enqueue, h]

theorem enqueue_queue_metadata (s : DbmQueue) (d : String) (f : Frame)
    (t : Nat) (h : f.message_id ≠ "") :
    ((s.enqueue d f t).2).queue_metadata =
      Assoc.set
        (if (Assoc.get s.queue_metadata d).isNone then
          Assoc.set s.queue_metadata d defaultEntry
        else s.queue_metadata) d
        { frames := f.message_id :: (entryOf s d).frames
          enqueued := (entryOf s d).enqueued + 1
          dequeued := (entryOf s d).dequeued
          size := (entryOf s d).size } := by
  simp only [enqueue, h, if_neg h]
  cases hget : Assoc.get s.queue_metadata d with
  | none => simp [entryOf, hget, Assoc.get_set_self, defaultEntry, sync_queue_metadata]
  | some e => simp [entryOf, hget, sync_queue_metadata]

theorem get_md_enqueue_self (s : DbmQueue) (d : String) (f : Frame) (t : Nat)
    (h : f.message_id ≠ "") :
    Assoc.get ((s.enqueue d f t).2).queue_metadata d =
      some { frames := f.message_id :: (entryOf s d).frames
             enqueued := (entryOf s d).enqueued + 1
             dequeued := (entryOf s d).dequeued
             size := (entryOf s d).size } := by
  rw [enqueue_queue_metadata s d f t h, Assoc.get_set_self]

theorem get_md_enqueue_other (s : DbmQueue) (d d' : String) (f : Frame)
    (t : Nat) (h : f.message_id ≠ "") (hd : d' ≠ d) :
    Assoc.get ((s.enqueue d f t).2).queue_metadata d' =
      Assoc.get s.queue_metadata d' := by
  rw [enqueue_queue_metadata s d f t h, Assoc.get_set_ne _ _ hd]
  split
  · rw [Assoc.get_set_ne _ _ hd]
  · rfl

theorem enqueue_frame_store (s : DbmQueue) (d : String) (f : Frame) (t : Nat)
    (h : f.message_id ≠ "") :
    ((s.enqueue d f t).2).frame_store =
      Assoc.set s.frame_store f.message_id f := by
  simp [enqueue, h, sync_frame_store]

theorem get_fs_enqueue_self (s : DbmQueue) (d : String) (f : Frame) (t : Nat)
    (h : f.message_id ≠ "") :
    Assoc.get ((s.enqueue d f t).2).frame_store f.message_id = some f := by
  rw [enqueue_frame_store s d f t h, Assoc.get_set_self]

theorem get_fs_enqueue_other (s : DbmQueue) (d : String) (f : Frame) (t : Nat)
    (mid : String) (h : f.message_id ≠ "") (hm : mid ≠ f.message_id) :
    Assoc.get ((s.enqueue d f t).2).frame_store mid =
      Assoc.get s.frame_store mid := by
  rw [enqueue_frame_store s d f t h, Assoc.get_set_ne _ _ hm]

theorem has_frames_iff (s : DbmQueue) (d : String) :
    has_frames s d = true ↔
      ∃ e, Assoc.get s.queue_metadata d = some e ∧ e.frames ≠ [] := by
  unfold has_frames
  cases hget : Assoc.get s.queue_metadata d with
  | none => simp
  | some e => simp [List.isEmpty_iff]

theorem dequeue_queue_metadata (s : DbmQueue) (d : String) (t : Nat) :
    ((s.dequeue d t).2).queue_metadata =
      if has_frames s d then
        Assoc.set s.queue_metadata d
          { frames := (entryOf s d).frames.dropLast
            enqueued := (entryOf s d).enqueued
            dequeued := (entryOf s d).dequeued + 1
            size := (entryOf s d).size }
      else s.queue_metadata := by
  by_cases hf : has_frames s d = true
  · rw [if_pos hf]
    unfold dequeue
    rw [if_neg (not_not_intro hf)]
    dsimp only
    split
    · simp [entryOf, defaultEntry]
    · simp [entryOf, defaultEntry, sync_queue_metadata]
  · rw [if_neg hf]
    unfold dequeue
    rw [if_pos hf]

theorem dequeue_spec (s : DbmQueue) (d : String) (t : Nat) (e : MetadataEntry)
    (mid : String) (fr : Frame)
    (he : Assoc.get s.queue_metadata d = some e)
    (hl : e.frames.getLast? = some mid)
    (hfr : Assoc.get s.frame_store mid = some fr) :
    (s.dequeue d t).1 = .returned (some fr) ∧
    ((s.dequeue d t).2).queue_metadata =
      Assoc.set s.queue_metadata d
        { frames := e.frames.dropLast
          enqueued := e.enqueued
          dequeued := e.dequeued + 1
          size := e.size } ∧
    ((s.dequeue d t).2).frame_store = Assoc.erase s.frame_store mid := by
  have hne : e.frames ≠ [] := by
    intro h0
    rw [h0] at hl
    simp at hl
  have hf : has_frames s d = true := (has_frames_iff s d).2 ⟨e, he, hne⟩
  unfold dequeue
  rw [if_neg (not_not_intro hf)]
  simp only [he, Option.getD_some, hl, hfr]
  simp [sync_queue_metadata, sync_frame_store]

theorem enqueue_of_empty_id (s : DbmQueue) (d : String) (f : Frame) (t : Nat)
    (h : f.message_id = "") :
    s.enqueue d f t = (some "Cannot queue a frame without message-id set.", s) := by
  unfold enqueue
  rw [if_pos h]

theorem dequeue_of_no_frames (s : DbmQueue) (d : String) (t : Nat)
    (hf : ¬ has_frames s d = true) :
    s.dequeue d t = (.returned none, s) := by
  unfold dequeue
  rw [if_pos hf]

theorem has_frames_of_size_zero (s : DbmQueue) (d : String)
    (h : size s d = 0) : has_frames s d = false := by
  unfold has_frames
  unfold size at h
  cases hget : Assoc.get s.queue_metadata d with
  | none => rfl
  | some e =>
    rw [hget] at h
    simp [List.isEmpty_iff, List.eq_nil_of_length_eq_zero h]

end DbmQueue

/-! ## Lemmas about the multiset of pending message ids -/

theorem pendingAll_cons (p : String × MetadataEntry)
    (l : List (String × MetadataEntry)) :
    pendingAll (p :: l) = p.2.frames ++ pendingAll l := rfl

theorem mem_pendingAll_of_get {l : List (String × MetadataEntry)} {k : String}
    {e : MetadataEntry} (h : Assoc.get l k = some e) {mid : String}
    (hm : mid ∈ e.frames) : mid ∈ pendingAll l := by
  induction l with
  | nil => simp [Assoc.get] at h
  | cons p rest ih =>
    by_cases hp : p.1 = k
    · have hpe : p.2 = e := by simpa [Assoc.get, hp] using h
      rw [pendingAll_cons]
      exact List.mem_append_left _ (hpe ▸ hm)
    · rw [pendingAll_cons]
      exact List.mem_append_right _ (ih (by simpa [Assoc.get, hp] using h))

theorem pendingAll_set_some {l : List (String × MetadataEntry)} {k : String}
    {e : MetadataEntry} (v : MetadataEntry) (h : Assoc.get l k = some e) :
    ∃ pre suf, pendingAll l = pre ++ (e.frames ++ suf) ∧
      pendingAll (Assoc.set l k v) = pre ++ (v.frames ++ suf) := by
  induction l with
  | nil => simp [Assoc.get] at h
  | cons p rest ih =>
    by_cases hp : p.1 = k
    · have hpe : p.2 = e := by simpa [Assoc.get, hp] using h
      refine ⟨[], pendingAll rest, ?_, ?_⟩
      · simp [pendingAll_cons, hpe]
      · rw [show Assoc.set (p :: rest) k v = (k, v) :: rest from by
          simp [Assoc.set, hp]]
        simp [pendingAll_cons]
    · have h' : Assoc.get rest k = some e := by simpa [Assoc.get, hp] using h
      obtain ⟨pre, suf, h1, h2⟩ := ih h'
      refine ⟨p.2.frames ++ pre, suf, ?_, ?_⟩
      · simp [pendingAll_cons, h1]
      · rw [show Assoc.set (p :: rest) k v = p :: Assoc.set rest k v from by
          simp [Assoc.set, hp]]
        simp [pendingAll_cons, h2]

theorem pendingAll_set_none {l : List (String × MetadataEntry)} {k : String}
    (v : MetadataEntry) (h : Assoc.get l k = none) :
    pendingAll (Assoc.set l k v) = pendingAll l ++ v.frames := by
  induction l with
  | nil => simp [Assoc.set, pendingAll]
  | cons p rest ih =>
    by_cases hp : p.1 = k
    · simp [Assoc.get, hp] at h
    · have h' : Assoc.get rest k = none := by simpa [Assoc.get, hp] using h
      rw [show Assoc.set (p :: rest) k v = p :: Assoc.set rest k v from by
        simp [Assoc.set, hp]]
      simp [pendingAll_cons, ih h']

/-! ## Per-entry invariants preserved by every operation -/

theorem run_cons (s : DbmQueue) (op : Op) (ops : List Op) :
    run s (op :: ops) = run (runOp s op) ops := rfl

theorem entryInv_enqueue (P : MetadataEntry → Prop)
    (henq : ∀ e mid, P e →
      P { frames := mid :: e.frames, enqueued := e.enqueued + 1,
          dequeued := e.dequeued, size := e.size })
    (hdefault : P defaultEntry)
    (s : DbmQueue) (hs : ∀ d e, Assoc.get s.queue_metadata d = some e → P e)
    (d : String) (f : Frame) (t : Nat) :
    ∀ d' e', Assoc.get ((s.enqueue d f t).2).queue_metadata d' = some e' →
      P e' := by
  intro d' e' hget
  by_cases hid : f.message_id = ""
  · rw [DbmQueue.enqueue_of_empty_id s d f t hid] at hget
    exact hs d' e' hget
  · by_cases hd : d' = d
    · subst hd
      rw [DbmQueue.get_md_enqueue_self s d' f t hid] at hget
      have hP : P (entryOf s d') := by
        unfold entryOf
        cases hg : Assoc.get s.queue_metadata d' with
        | none => simpa using hdefault
        | some e => simpa using hs d' e hg
      exact (Option.some_inj.1 hget) ▸ henq (entryOf s d') f.message_id hP
    · rw [DbmQueue.get_md_enqueue_other s d d' f t hid hd] at hget
      exact hs d' e' hget

theorem entryInv_dequeue (P : MetadataEntry → Prop)
    (hdeq : ∀ e, P e → e.frames ≠ [] →
      P { frames := e.frames.dropLast, enqueued := e.enqueued,
          dequeued := e.dequeued + 1, size := e.size })
    (s : DbmQueue) (hs : ∀ d e, Assoc.get s.queue_metadata d = some e → P e)
    (d : String) (t : Nat) :
    ∀ d' e', Assoc.get ((s.dequeue d t).2).queue_metadata d' = some e' →
      P e' := by
  intro d' e' hget
  rw [DbmQueue.dequeue_queue_metadata s d t] at hget
  by_cases hf : DbmQueue.has_frames s d = true
  · rw [if_pos hf] at hget
    obtain ⟨e, he, hne⟩ := (DbmQueue.has_frames_iff s d).1 hf
    have hent : entryOf s d = e := by simp [entryOf, he]
    by_cases hd : d' = d
    · subst hd
      rw [Assoc.get_set_self] at hget
      have := hdeq e (hs d' e he) hne
      rw [← Option.some_inj.1 hget, hent]
      exact this
    · rw [Assoc.get_set_ne _ _ hd] at hget
      exact hs d' e' hget
  · rw [if_neg hf] at hget
    exact hs d' e' hget

theorem entryInv_run (P : MetadataEntry → Prop)
    (henq : ∀ e mid, P e →
      P { frames := mid :: e.frames, enqueued := e.enqueued + 1,
          dequeued := e.dequeued, size := e.size })
    (hdeq : ∀ e, P e → e.frames ≠ [] →
      P { frames := e.frames.dropLast, enqueued := e.enqueued,
          dequeued := e.dequeued + 1, size := e.size })
    (hdefault : P defaultEntry)
    (ops : List Op) :
    ∀ s : DbmQueue, (∀ d e, Assoc.get s.queue_metadata d = some e → P e) →
      ∀ d e, Assoc.get (run s ops).queue_metadata d = some e → P e := by
  induction ops with
  | nil => intro s hs; exact hs
  | cons op rest ih =>
    intro s hs
    rw [run_cons]
    refine ih (runOp s op) ?_
    cases op with
    | enq d f t => exact entryInv_enqueue P henq hdefault s hs d f t
    | deq d t => exact entryInv_dequeue P hdeq s hs d t

/-! ## Preservation of the well-formedness invariant `InvS` -/

theorem invS_init (co ct : Option Nat) (t0 : Nat) :
    InvS (DbmQueue.init co ct t0) := by
  constructor <;> simp [DbmQueue.init, pendingAll]

theorem invS_enqueue_aux (s : DbmQueue) (d : String) (f : Frame) (t : Nat)
    (md1 : List (String × MetadataEntry)) (e1 : MetadataEntry)
    (h : InvS s) ( _hid : f.message_id ≠ "")
    (hfresh : f.message_id ∉ pendingAll s.queue_metadata)
    (hmd : ((s.enqueue d f t).2).queue_metadata = Assoc.set md1 d
      { frames := f.message_id :: e1.frames, enqueued := e1.enqueued + 1,
        dequeued := e1.dequeued, size := e1.size })
    (hget1 : Assoc.get md1 d = some e1)
    (hpend1 : pendingAll md1 = pendingAll s.queue_metadata)
    (hfs : ((s.enqueue d f t).2).frame_store =
      Assoc.set s.frame_store f.message_id f) :
    InvS ((s.enqueue d f t).2) := by
  obtain ⟨pre, suf, hd1, hd2⟩ := pendingAll_set_some
    { frames := f.message_id :: e1.frames, enqueued := e1.enqueued + 1,
      dequeued := e1.dequeued, size := e1.size } hget1
  have hd2' : pendingAll ((s.enqueue d f t).2).queue_metadata =
      pre ++ f.message_id :: (e1.frames ++ suf) := by
    rw [hmd, hd2]
    simp
  have hold : pre ++ (e1.frames ++ suf) = pendingAll s.queue_metadata := by
    rw [← hd1, hpend1]
  constructor
  · rw [hfs]
    exact Assoc.nodup_keys_set _ _ _ h.fsNodup
  · rw [hd2', List.nodup_middle, List.nodup_cons]
    exact ⟨by rw [hold]; exact hfresh, by rw [hold]; exact h.pendNodup⟩
  · intro mid' hmid'
    rw [hd2'] at hmid'
    rw [hfs]
    by_cases hmm : mid' = f.message_id
    · subst hmm
      rw [Assoc.get_set_self]
      rfl
    · rw [Assoc.get_set_ne _ _ hmm]
      refine h.archived mid' ?_
      rw [← hold]
      rcases List.mem_append.1 hmid' with hin | hin
      · exact List.mem_append_left _ hin
      · rcases List.mem_cons.1 hin with heq | hin2
        · exact absurd heq hmm
        · exact List.mem_append_right _ hin2

theorem invS_enqueue (s : DbmQueue) (d : String) (f : Frame) (t : Nat)
    (h : InvS s) (hid : f.message_id ≠ "")
    (hfresh : f.message_id ∉ pendingAll s.queue_metadata) :
    InvS ((s.enqueue d f t).2) := by
  have hmd := DbmQueue.enqueue_queue_metadata s d f t hid
  have hfs := DbmQueue.enqueue_frame_store s d f t hid
  cases hget : Assoc.get s.queue_metadata d with
  | none =>
    have hent : entryOf s d = defaultEntry := by simp [entryOf, hget]
    refine invS_enqueue_aux s d f t
      (Assoc.set s.queue_metadata d defaultEntry) defaultEntry h hid hfresh
      ?_ (Assoc.get_set_self _ _ _) ?_ hfs
    · rw [hmd, hent]
      simp [hget]
    · rw [pendingAll_set_none defaultEntry hget]
      simp [defaultEntry]
  | some e =>
    have hent : entryOf s d = e := by simp [entryOf, hget]
    refine invS_enqueue_aux s d f t s.queue_metadata e h hid hfresh
      ?_ hget rfl hfs
    rw [hmd, hent]
    simp [hget]

theorem invS_dequeue (s : DbmQueue) (d : String) (t : Nat) (h : InvS s) :
    InvS ((s.dequeue d t).2) := by
  by_cases hf : DbmQueue.has_frames s d = true
  · obtain ⟨e, he, hne⟩ := (DbmQueue.has_frames_iff s d).1 hf
    obtain ⟨g, hg⟩ : ∃ g, e.frames.getLast? = some g :=
      ⟨e.frames.getLast hne, List.getLast?_eq_getLast_of_ne_nil hne⟩
    have hsplit : e.frames.dropLast ++ [g] = e.frames :=
      List.dropLast_append_getLast? g hg
    have hmem : g ∈ e.frames := by
      rw [← hsplit]
      exact List.mem_append_right _ (by simp)
    have hpend : g ∈ pendingAll s.queue_metadata :=
      mem_pendingAll_of_get he hmem
    obtain ⟨fr, hfr⟩ := Option.isSome_iff_exists.1 (h.archived _ hpend)
    obtain ⟨hout, hmd, hfs⟩ := DbmQueue.dequeue_spec s d t e g fr he hg hfr
    obtain ⟨pre, suf, hd1, hd2⟩ := pendingAll_set_some
      { frames := e.frames.dropLast, enqueued := e.enqueued,
        dequeued := e.dequeued + 1, size := e.size } he
    have hnd : (pre ++ (e.frames ++ suf)).Nodup := hd1 ▸ h.pendNodup
    have hd2' : pendingAll ((s.dequeue d t).2).queue_metadata =
        pre ++ (e.frames.dropLast ++ suf) := by
      rw [hmd, hd2]
    have hmidnot : g ∉ pre ++ (e.frames.dropLast ++ suf) := by
      rw [← hsplit] at hnd
      have heq2 : pre ++ ((e.frames.dropLast ++ [g]) ++ suf)
          = (pre ++ e.frames.dropLast) ++ g :: suf := by
        simp [List.append_assoc]
      rw [heq2] at hnd
      have hnotin := (List.nodup_cons.1 (List.nodup_middle.1 hnd)).1
      rwa [List.append_assoc] at hnotin
    have hnd : (pre ++ (e.frames ++ suf)).Nodup := hd1 ▸ h.pendNodup
    constructor
    · rw [hfs]
      exact Assoc.nodup_keys_erase _ _ h.fsNodup
    · rw [hd2']
      exact List.Nodup.sublist
        (((List.dropLast_sublist e.frames).append_right suf).append_left pre) hnd
    · intro mid' hmid'
      rw [hd2'] at hmid'
      rw [hfs]
      by_cases hmm : mid' = g
      · exact absurd (hmm ▸ hmid') hmidnot
      · rw [Assoc.get_erase_ne _ hmm]
        refine h.archived mid' ?_
        rw [hd1]
        rcases List.mem_append.1 hmid' with hin | hin
        · exact List.mem_append_left _ hin
        · rcases List.mem_append.1 hin with hin2 | hin2
          · exact List.mem_append_right _
              (List.mem_append_left _ ((List.dropLast_sublist e.frames).subset hin2))
          · exact List.mem_append_right _ (List.mem_append_right _ hin2)
  · rw [DbmQueue.dequeue_of_no_frames s d t hf]
    exact h

theorem invS_reachOk {s0 s : DbmQueue} (h0 : InvS s0) (h : ReachOk s0 s) :
    InvS s := by
  induction h with
  | refl => exact h0
  | enq d f t hr hid hfresh ih => exact invS_enqueue _ d f t ih hid hfresh
  | deq d t hr ih => exact invS_dequeue _ d t ih

/-! ## Destinations never enqueued to stay absent -/

theorem get_none_run (ops : List Op) :
    ∀ (s : DbmQueue) (d : String),
      Assoc.get s.queue_metadata d = none → enqueuesTo ops d = false →
        Assoc.get (run s ops).queue_metadata d = none := by
  induction ops with
  | nil =>
    intro s d h _
    exact h
  | cons op rest ih =>
    intro s d h hops
    rw [run_cons]
    cases op with
    | enq d' f t =>
      have hsplit : (d' == d) = false ∧ enqueuesTo rest d = false := by
        have hform : enqueuesTo (Op.enq d' f t :: rest) d =
            ((d' == d) || enqueuesTo rest d) := rfl
        rw [hform] at hops
        exact Bool.or_eq_false_iff.1 hops
      have hd : d ≠ d' := by
        intro hdd
        subst hdd
        simp at hsplit
      refine ih _ d ?_ hsplit.2
      by_cases hid : f.message_id = ""
      · have heq : (s.enqueue d' f t).2 = s := by
          rw [DbmQueue.enqueue_of_empty_id s d' f t hid]
        simp only [runOp, heq]
        exact h
      · simp only [runOp]
        rw [DbmQueue.get_md_enqueue_other s d' d f t hid hd]
        exact h
    | deq d' t =>
      have hrest : enqueuesTo rest d = false := by
        have hform : enqueuesTo (Op.deq d' t :: rest) d =
            (false || enqueuesTo rest d) := rfl
        rw [hform] at hops
        simpa using hops
      refine ih _ d ?_ hrest
      simp only [runOp]
      rw [DbmQueue.dequeue_queue_metadata]
      by_cases hf : DbmQueue.has_frames s d' = true
      · rw [if_pos hf]
        by_cases hdd : d = d'
        · subst hdd
          simp [DbmQueue.has_frames, h] at hf
        · rw [Assoc.get_set_ne _ _ hdd]
          exact h
      · rw [if_neg hf]
        exact h

/-! ## Tracking the pending list of one destination through operations -/

theorem get_of_entryOf_ne_nil (s : DbmQueue) (d : String)
    (h : (entryOf s d).frames ≠ []) :
    Assoc.get s.queue_metadata d = some (entryOf s d) := by
  unfold entryOf at *
  cases hget : Assoc.get s.queue_metadata d with
  | none =>
    rw [hget] at h
    simp [defaultEntry] at h
  | some e => simp [hget]

theorem enqueue_frames (s : DbmQueue) (d : String) (f : Frame) (t : Nat)
    (h : f.message_id ≠ "") :
    (entryOf ((s.enqueue d f t).2) d).frames =
      f.message_id :: (entryOf s d).frames := by
  simp [entryOf, DbmQueue.get_md_enqueue_self s d f t h]

theorem dequeue_step (s : DbmQueue) (d : String) (t : Nat) (l : List String)
    (mid : String) (fr : Frame)
    (hframes : (entryOf s d).frames = l ++ [mid])
    (hfr : Assoc.get s.frame_store mid = some fr) :
    (s.dequeue d t).1 = .returned (some fr) ∧
    (entryOf ((s.dequeue d t).2) d).frames = l ∧
    ((s.dequeue d t).2).frame_store = Assoc.erase s.frame_store mid := by
  have hne : (entryOf s d).frames ≠ [] := by
    rw [hframes]
    simp
  have he := get_of_entryOf_ne_nil s d hne
  have hl : (entryOf s d).frames.getLast? = some mid := by
    rw [hframes]
    simp
  obtain ⟨h1, h2, h3⟩ := DbmQueue.dequeue_spec s d t (entryOf s d) mid fr he hl hfr
  refine ⟨h1, ?_, h3⟩
  have hdl : (entryOf s d).frames.dropLast = l := by
    rw [hframes]
    simp
  unfold entryOf
  rw [h2, Assoc.get_set_self, Option.getD_some]
  exact hdl

/-! ## Claim theorems -/

/-- C3: enqueueing a frame whose `message_id` is empty fails with the
`ValueError` and mutates nothing: the whole store state (metadata entry,
counters, frame archive, `_opcount`, `_last_sync`, flush count) is exactly the
input state, so in particular `size d` is unchanged. -/
theorem enqueue_empty_id_rejected (s : DbmQueue) (d : String) (f : Frame)
    (t : Nat) (h : f.message_id = "") :
    (s.enqueue d f t).1 = some "Cannot queue a frame without message-id set." ∧
    (s.enqueue d f t).2 = s ∧
    DbmQueue.size ((s.enqueue d f t).2) d = DbmQueue.size s d := by
  rw [DbmQueue.enqueue_of_empty_id s d f t h]
  exact ⟨rfl, rfl, rfl⟩

/-- Witness for C3 at a concrete input. -/
theorem enqueue_empty_id_rejected_witness :
    ((DbmQueue.init none none 0).enqueue "/queue/d" ⟨"", "x"⟩ 0).2 =
      DbmQueue.init none none 0 :=
  (enqueue_empty_id_rejected (DbmQueue.init none none 0) "/queue/d"
    ⟨"", "x"⟩ 0 rfl).2.1

/-- C4: dequeue on a destination with no pending frames (unknown or empty)
returns `None` and leaves the entire store state unchanged (counters, metadata
index, frame archive and `_opcount` included). -/
theorem dequeue_empty_returns_none (s : DbmQueue) (d : String) (t : Nat)
    (h : DbmQueue.size s d = 0) :
    s.dequeue d t = (.returned none, s) :=
  DbmQueue.dequeue_of_no_frames s d t
    (by simp [DbmQueue.has_frames_of_size_zero s d h])

/-- Witness for C4 at a concrete input. -/
theorem dequeue_empty_returns_none_witness :
    (DbmQueue.init none none 0).dequeue "/queue/missing" 7 =
      (.returned none, DbmQueue.init none none 0) :=
  dequeue_empty_returns_none (DbmQueue.init none none 0) "/queue/missing" 7 rfl

/-- C8: `make_dbm` fails with a `ConfigError` — and therefore never
constructs a `DbmQueue`, never opening the underlying stores — whenever the
data-directory parameter is missing or empty, the directory does not exist,
or it is not both readable and writable. -/
theorem make_dbm_validation (data_dir : Option String)
    (dirExists canRead canWrite : Bool) (cp_ops cp_timeout : Option Nat)
    (t0 : Nat)
    (h : data_dir = none ∨ data_dir = some "" ∨ dirExists = false ∨
      canRead = false ∨ canWrite = false) :
    ∃ msg, make_dbm data_dir dirExists canRead canWrite cp_ops cp_timeout t0 =
      Except.error msg := by
  unfold make_dbm
  cases data_dir with
  | none => exact ⟨_, rfl⟩
  | some dd =>
    dsimp only
    by_cases hdd : dd = ""
    · rw [if_pos hdd]
      exact ⟨_, rfl⟩
    · rw [if_neg hdd]
      rcases h with h | h | h | h | h
      · exact absurd h (by simp)
      · exact absurd (Option.some_inj.1 h) hdd
      · rw [if_pos (by simp [h])]
        exact ⟨_, rfl⟩
      · by_cases hde : dirExists = true
        · rw [if_neg (by simp [hde]), if_pos (by simp [h])]
          exact ⟨_, rfl⟩
        · rw [if_pos (by simpa using hde)]
          exact ⟨_, rfl⟩
      · by_cases hde : dirExists = true
        · rw [if_neg (by simp [hde]), if_pos (by simp [h])]
          exact ⟨_, rfl⟩
        · rw [if_pos (by simpa using hde)]
          exact ⟨_, rfl⟩

/-- Witness for C8 at a concrete input (missing data-directory parameter). -/
theorem make_dbm_validation_witness :
    ∃ msg, make_dbm none true true true none none 0 = Except.error msg :=
  make_dbm_validation none true true true none none 0 (Or.inl rfl)

/-- C10: message-id uniqueness is not enforced.  Enqueueing two frames with
the same non-empty message id `"m"` to the same destination and dequeueing
twice makes the first dequeue return the frame of the second enqueue (whose
`put` overwrote the shared archive entry) and makes the second dequeue hit
the uncaught `KeyError` at `frame_store[message_id]`, instead of returning a
frame or `None`. -/
theorem duplicate_id_key_error :
    ((((DbmQueue.init none none 0).enqueue "/queue/a" ⟨"m", "first"⟩ 0).2.enqueue
        "/queue/a" ⟨"m", "second"⟩ 0).2.dequeue "/queue/a" 0).1 =
      .returned (some ⟨"m", "second"⟩) ∧
    (((((DbmQueue.init none none 0).enqueue "/queue/a" ⟨"m", "first"⟩ 0).2.enqueue
        "/queue/a" ⟨"m", "second"⟩ 0).2.dequeue "/queue/a" 0).2.dequeue
        "/queue/a" 0).1 =
      .keyError "m" := by
  decide

/-- C6: `_sync` flushes the metadata shelf exactly when the unflushed
operation count strictly exceeds `checkpoint_operations` or the time since
the last flush strictly exceeds `checkpoint_timeout`; a flush resets the
operation count to 0 and the last-flush timestamp to the current time, and a
skipped flush changes nothing.  With `checkpoint_operations = 2` and a
3600-second timeout, three enqueues flush for the first time on the third
operation, not on the first two. -/
theorem checkpoint_flush_policy :
    (∀ (s : DbmQueue) (now : Nat),
      (DbmQueue.sync s now).sync_count = s.sync_count + 1 ↔
        (s.opcount > s.checkpoint_operations ∨
          now > s.last_sync + s.checkpoint_timeout)) ∧
    (∀ (s : DbmQueue) (now : Nat),
      s.opcount > s.checkpoint_operations ∨
          now > s.last_sync + s.checkpoint_timeout →
        DbmQueue.sync s now =
          { s with sync_count := s.sync_count + 1, last_sync := now,
                   opcount := 0 }) ∧
    (∀ (s : DbmQueue) (now : Nat),
      ¬(s.opcount > s.checkpoint_operations ∨
          now > s.last_sync + s.checkpoint_timeout) →
        DbmQueue.sync s now = s) ∧
    ((run (DbmQueue.init (some 2) (some 3600) 0)
        [Op.enq "/queue/c" ⟨"1", "m1"⟩ 0]).sync_count = 0 ∧
      (run (DbmQueue.init (some 2) (some 3600) 0)
        [Op.enq "/queue/c" ⟨"1", "m1"⟩ 0,
         Op.enq "/queue/c" ⟨"2", "m2"⟩ 0]).sync_count = 0 ∧
      (run (DbmQueue.init (some 2) (some 3600) 0)
        [Op.enq "/queue/c" ⟨"1", "m1"⟩ 0,
         Op.enq "/queue/c" ⟨"2", "m2"⟩ 0,
         Op.enq "/queue/c" ⟨"3", "m3"⟩ 0]).sync_count = 1) := by
  refine ⟨?_, ?_, ?_, by decide, by decide, by decide⟩
  · intro s now
    unfold DbmQueue.sync
    by_cases hc : s.opcount > s.checkpoint_operations ∨
        now > s.last_sync + s.checkpoint_timeout
    · rw [if_pos hc]
      simpa using hc
    · rw [if_neg hc]
      simpa using hc
  · intro s now hc
    unfold DbmQueue.sync
    rw [if_pos hc]
  · intro s now hc
    unfold DbmQueue.sync
    rw [if_neg hc]

/-- Witness for C6 at concrete inputs: one state where the flush condition
holds and one where it does not. -/
theorem checkpoint_flush_policy_witness :
    DbmQueue.sync ⟨[], [], 3, 0, 2, 3600, 0⟩ 0 = ⟨[], [], 0, 0, 2, 3600, 1⟩ ∧
    DbmQueue.sync (DbmQueue.init (some 2) (some 3600) 5) 6 =
      DbmQueue.init (some 2) (some 3600) 5 :=
  ⟨checkpoint_flush_policy.2.1 ⟨[], [], 3, 0, 2, 3600, 0⟩ 0 (by decide),
   checkpoint_flush_policy.2.2.1 (DbmQueue.init (some 2) (some 3600) 5) 6
     (by decide)⟩

/-- C2: after any sequence of enqueue/dequeue operations from a fresh store,
every destination's `enqueued` counter minus its `dequeued` counter equals
the length of its pending deque, which is the value `size` returns (a
destination never created has 0 for all three). -/
theorem counter_invariant (co ct : Option Nat) (t0 : Nat) (ops : List Op)
    (d : String) :
    (entryOf (run (DbmQueue.init co ct t0) ops) d).enqueued -
        (entryOf (run (DbmQueue.init co ct t0) ops) d).dequeued =
      DbmQueue.size (run (DbmQueue.init co ct t0) ops) d ∧
    (entryOf (run (DbmQueue.init co ct t0) ops) d).dequeued ≤
      (entryOf (run (DbmQueue.init co ct t0) ops) d).enqueued := by
  have key := entryInv_run
    (fun e => e.enqueued = e.dequeued + e.frames.length)
    (by
      intro e mid h
      simp only [List.length_cons]
      omega)
    (by
      intro e h hne
      have hpos : 0 < e.frames.length := List.length_pos.2 hne
      simp only [List.length_dropLast]
      omega)
    (by simp [defaultEntry])
    ops (DbmQueue.init co ct t0)
    (by
      intro d' e' h
      simp [DbmQueue.init, Assoc.get] at h)
  cases hget : Assoc.get (run (DbmQueue.init co ct t0) ops).queue_metadata d with
  | none =>
    simp [entryOf, hget, DbmQueue.size, defaultEntry]
  | some e =>
    have he := key d e hget
    constructor
    · simp only [entryOf, hget, Option.getD_some, DbmQueue.size]
      omega
    · simp only [entryOf, hget, Option.getD_some]
      omega

/-- C9: the `size` field of a metadata entry is 0 at creation and is never
updated by any operation (it is still 0 after any operation sequence from a
fresh store), and `size()` computes the queue depth as the length of the
pending deque, ignoring that field. -/
theorem size_hint_unused (co ct : Option Nat) (t0 : Nat) (ops : List Op)
    (d : String) :
    (entryOf (run (DbmQueue.init co ct t0) ops) d).size = 0 ∧
    (∀ (s : DbmQueue) (d' : String),
      DbmQueue.size s d' = (entryOf s d').frames.length) := by
  constructor
  · have key := entryInv_run (fun e => e.size = 0)
      (by intro e mid h; simpa using h)
      (by intro e h hne; simpa using h)
      (by simp [defaultEntry])
      ops (DbmQueue.init co ct t0)
      (by
        intro d' e' h
        simp [DbmQueue.init, Assoc.get] at h)
    cases hget : Assoc.get (run (DbmQueue.init co ct t0) ops).queue_metadata d with
    | none => simp [entryOf, hget, defaultEntry]
    | some e =>
      have := key d e hget
      simpa [entryOf, hget] using this
  · intro s d'
    unfold DbmQueue.size entryOf
    cases hget : Assoc.get s.queue_metadata d' with
    | none => simp [defaultEntry]
    | some e => simp

/-- C5: `has_frames d` is true exactly when `size d > 0`, for every store
state and destination; and a destination never enqueued to still reports
`has_frames = false` and `size = 0` after any operation sequence from a
fresh store. -/
theorem has_frames_size_consistency :
    (∀ (s : DbmQueue) (d : String),
        DbmQueue.has_frames s d = true ↔ 0 < DbmQueue.size s d) ∧
    (∀ (co ct : Option Nat) (t0 : Nat) (ops : List Op) (d : String),
        enqueuesTo ops d = false →
          DbmQueue.has_frames (run (DbmQueue.init co ct t0) ops) d = false ∧
          DbmQueue.size (run (DbmQueue.init co ct t0) ops) d = 0) := by
  constructor
  · intro s d
    unfold DbmQueue.has_frames DbmQueue.size
    cases hget : Assoc.get s.queue_metadata d with
    | none => simp
    | some e => simp [List.isEmpty_iff, List.length_pos]
  · intro co ct t0 ops d hops
    have hnone : Assoc.get (run (DbmQueue.init co ct t0) ops).queue_metadata d
        = none :=
      get_none_run ops _ d (by simp [DbmQueue.init, Assoc.get]) hops
    constructor
    · simp [DbmQueue.has_frames, hnone]
    · simp [DbmQueue.size, hnone]

/-- Witness for C5 at a concrete input: one enqueue to `"/queue/a"` leaves
`"/queue/b"` empty on both reports. -/
theorem has_frames_size_consistency_witness :
    DbmQueue.has_frames
        (run (DbmQueue.init none none 0) [Op.enq "/queue/a" ⟨"m", "x"⟩ 0])
        "/queue/b" = false ∧
    DbmQueue.size
        (run (DbmQueue.init none none 0) [Op.enq "/queue/a" ⟨"m", "x"⟩ 0])
        "/queue/b" = 0 :=
  has_frames_size_consistency.2 none none 0
    [Op.enq "/queue/a" ⟨"m", "x"⟩ 0] "/queue/b" (by decide)

/-- C1: FIFO order.  Starting from any store state in which destination `d`
has no pending frames, enqueueing frames `fa, fb, fc` (non-empty, pairwise
distinct message ids) in that order with no interleaved dequeues and then
dequeueing three times returns `fa, fb, fc` in that order: dequeue always
returns the oldest still-outstanding frame of the destination. -/
theorem fifo_order (s : DbmQueue) (d : String) (fa fb fc : Frame)
    (t1 t2 t3 u1 u2 u3 : Nat)
    (h0 : DbmQueue.size s d = 0)
    (ha : fa.message_id ≠ "") (hb : fb.message_id ≠ "")
    (hc : fc.message_id ≠ "")
    (hab : fa.message_id ≠ fb.message_id)
    (hac : fa.message_id ≠ fc.message_id)
    (hbc : fb.message_id ≠ fc.message_id) :
    ((((s.enqueue d fa t1).2.enqueue d fb t2).2.enqueue d fc t3).2.dequeue
        d u1).1 = .returned (some fa) ∧
    (((((s.enqueue d fa t1).2.enqueue d fb t2).2.enqueue d fc t3).2.dequeue
        d u1).2.dequeue d u2).1 = .returned (some fb) ∧
    ((((((s.enqueue d fa t1).2.enqueue d fb t2).2.enqueue d fc t3).2.dequeue
        d u1).2.dequeue d u2).2.dequeue d u3).1 = .returned (some fc) := by
  have hE0 : (entryOf s d).frames = [] := by
    unfold DbmQueue.size at h0
    cases hget : Assoc.get s.queue_metadata d with
    | none => simp [entryOf, hget, defaultEntry]
    | some e =>
      rw [hget] at h0
      simp [entryOf, hget]
      exact List.eq_nil_of_length_eq_zero h0
  have ef1 : (entryOf ((s.enqueue d fa t1).2) d).frames = [fa.message_id] := by
    rw [enqueue_frames s d fa t1 ha, hE0]
  have ef2 : (entryOf (((s.enqueue d fa t1).2.enqueue d fb t2).2) d).frames =
      [fb.message_id, fa.message_id] := by
    rw [enqueue_frames _ d fb t2 hb, ef1]
  have ef3 : (entryOf ((((s.enqueue d fa t1).2.enqueue d fb t2).2.enqueue
      d fc t3).2) d).frames =
      [fc.message_id, fb.message_id, fa.message_id] := by
    rw [enqueue_frames _ d fc t3 hc, ef2]
  have fs_a : Assoc.get ((((s.enqueue d fa t1).2.enqueue d fb t2).2.enqueue
      d fc t3).2).frame_store fa.message_id = some fa := by
    rw [DbmQueue.get_fs_enqueue_other _ d fc t3 _ hc hac,
      DbmQueue.get_fs_enqueue_other _ d fb t2 _ hb hab]
    exact DbmQueue.get_fs_enqueue_self s d fa t1 ha
  have fs_b : Assoc.get ((((s.enqueue d fa t1).2.enqueue d fb t2).2.enqueue
      d fc t3).2).frame_store fb.message_id = some fb := by
    rw [DbmQueue.get_fs_enqueue_other _ d fc t3 _ hc hbc]
    exact DbmQueue.get_fs_enqueue_self _ d fb t2 hb
  have fs_c : Assoc.get ((((s.enqueue d fa t1).2.enqueue d fb t2).2.enqueue
      d fc t3).2).frame_store fc.message_id = some fc :=
    DbmQueue.get_fs_enqueue_self _ d fc t3 hc
  obtain ⟨ho1, hm1, hfs1⟩ := dequeue_step
    ((((s.enqueue d fa t1).2.enqueue d fb t2).2.enqueue d fc t3).2) d u1
    [fc.message_id, fb.message_id] fa.message_id fa
    (by rw [ef3]; rfl) fs_a
  obtain ⟨ho2, hm2, hfs2⟩ := dequeue_step _ d u2
    [fc.message_id] fb.message_id fb
    (by rw [hm1]; rfl) (by
      rw [hfs1, Assoc.get_erase_ne _ (Ne.symm hab)]
      exact fs_b)
  obtain ⟨ho3, _, _⟩ := dequeue_step _ d u3
    [] fc.message_id fc
    (by rw [hm2]; rfl) (by
      rw [hfs2, Assoc.get_erase_ne _ (Ne.symm hbc), hfs1,
        Assoc.get_erase_ne _ (Ne.symm hac)]
      exact fs_c)
  exact ⟨ho1, ho2, ho3⟩

/-- Witness for C1 at concrete inputs. -/
theorem fifo_order_witness :
    (((((DbmQueue.init none none 0).enqueue "/queue/a" ⟨"1", "x"⟩ 0).2.enqueue
        "/queue/a" ⟨"2", "y"⟩ 0).2.enqueue "/queue/a" ⟨"3", "z"⟩ 0).2.dequeue
        "/queue/a" 0).1 = .returned (some ⟨"1", "x"⟩) :=
  (fifo_order (DbmQueue.init none none 0) "/queue/a" ⟨"1", "x"⟩ ⟨"2", "y"⟩
    ⟨"3", "z"⟩ 0 0 0 0 0 0 rfl (by decide) (by decide) (by decide)
    (by decide) (by decide) (by decide)).1

/-- C7 does not hold for every operation sequence: enqueueing the id `"m"`
twice to `"/queue/a"` and dequeueing once leaves `"m"` still pending in the
destination's metadata while the frame archive has no entry for it — the
dequeue deleted the shared payload that the second put had overwritten. -/
theorem pending_archive_counterexample :
    Assoc.get (run (DbmQueue.init none none 0)
        [Op.enq "/queue/a" ⟨"m", "first"⟩ 0,
         Op.enq "/queue/a" ⟨"m", "second"⟩ 0,
         Op.deq "/queue/a" 0]).queue_metadata "/queue/a" =
      some { frames := ["m"], enqueued := 2, dequeued := 1, size := 0 } ∧
    "m" ∈ (entryOf (run (DbmQueue.init none none 0)
        [Op.enq "/queue/a" ⟨"m", "first"⟩ 0,
         Op.enq "/queue/a" ⟨"m", "second"⟩ 0,
         Op.deq "/queue/a" 0]) "/queue/a").frames ∧
    Assoc.get (run (DbmQueue.init none none 0)
        [Op.enq "/queue/a" ⟨"m", "first"⟩ 0,
         Op.enq "/queue/a" ⟨"m", "second"⟩ 0,
         Op.deq "/queue/a" 0]).frame_store "m" = none := by
  refine ⟨by decide, by decide, by decide⟩

/-- C7 (amended): provided no enqueue ever reuses a message id that is still
pending somewhere — the id-uniqueness discipline the source expects of its
callers — every message id present in some destination's pending sequence
has a payload entry in the frame archive; and when a destination's pending
sequence is `l ++ [mid]`, dequeueing removes both the identifier `mid` from
the metadata and the payload from the archive within that one operation. -/
theorem pending_archive_consistency (co ct : Option Nat) (t0 : Nat)
    (s : DbmQueue) (h : ReachOk (DbmQueue.init co ct t0) s) :
    (∀ (d : String) (e : MetadataEntry),
        Assoc.get s.queue_metadata d = some e →
        ∀ mid ∈ e.frames, (Assoc.get s.frame_store mid).isSome = true) ∧
    (∀ (d : String) (t : Nat) (l : List String) (mid : String)
        (e : MetadataEntry),
        Assoc.get s.queue_metadata d = some e → e.frames = l ++ [mid] →
        (entryOf ((s.dequeue d t).2) d).frames = l ∧
        Assoc.get ((s.dequeue d t).2).frame_store mid = none) := by
  have hinv := invS_reachOk (invS_init co ct t0) h
  constructor
  · intro d e he mid hmid
    exact hinv.archived mid (mem_pendingAll_of_get he hmid)
  · intro d t l mid e he hframes
    have hent : entryOf s d = e := by simp [entryOf, he]
    have hframes' : (entryOf s d).frames = l ++ [mid] := by
      rw [hent]
      exact hframes
    have hmem : mid ∈ e.frames := by
      rw [hframes]
      simp
    obtain ⟨fr, hfr⟩ := Option.isSome_iff_exists.1
      (hinv.archived mid (mem_pendingAll_of_get he hmem))
    obtain ⟨h1, h2, h3⟩ := dequeue_step s d t l mid fr hframes' hfr
    refine ⟨h2, ?_⟩
    rw [h3]
    exact Assoc.get_erase_self _ _ hinv.fsNodup

/-- Witness for the amended C7 at a concrete reachable state. -/
theorem pending_archive_consistency_witness :
    (Assoc.get ((DbmQueue.init none none 0).enqueue "/queue/a"
        ⟨"m", "x"⟩ 0).2.frame_store "m").isSome = true :=
  (pending_archive_consistency none none 0 _
      (ReachOk.enq "/queue/a" ⟨"m", "x"⟩ 0 (ReachOk.refl _) (by decide)
        (by decide))).1
    "/queue/a" { frames := ["m"], enqueued := 1, dequeued := 0, size := 0 }
    (by decide) "m" (by decide)

end CoilMQ
